import Mathlib

/-!
Verification of two subsystems of the RaftKeeper fragment:

* the snapshot serialization layer (`src/Service/SnapshotCommon.cpp`):
  byte-level models of the V2+ batch-body codec, the per-batch CRC framing,
  the running checksum fold, and the V2 domain-serializer skeletons;
* the commit-ordering processor (`src/Service/SvsKeeperCommitProcessor.h`,
  the selected `run3` worker-loop variant): a per-session state-machine
  model of the worker loop, its error drain, input drain, read serving and
  committed-write application phases, together with `processRequest` and
  the `shutdown` drain.

All byte strings are `List Nat` with each entry < 256.  Machine integers
are modelled as `Nat`/`Int` with explicit reductions modulo `2 ^ w` where
overflow can matter.
-/

set_option maxRecDepth 20000

namespace RaftKeeper

/-! ## Byte primitives

`writeIntBinary` in the source writes the raw little-endian bytes of a
fixed-width integer.  `leBytes w n` is the `w`-byte little-endian encoding
of `n % 256 ^ w`. -/

def leBytes : Nat → Nat → List Nat
  | 0, _ => []
  | w + 1, n => n % 256 :: leBytes w (n / 256)

/-- Little-endian decoding of a byte list (bytes taken mod 256). -/
def decodeLeNat (bs : List Nat) : Nat :=
  bs.foldr (fun b acc => b % 256 + acc * 256) 0

/-- Reinterpret a `Nat` below `2 ^ 32` as a signed 32-bit value
(two's complement), as `readIntBinary` into an `int32_t` does. -/
def asInt32 (n : Nat) : Int :=
  if n < 2 ^ 31 then (n : Int) else (n : Int) - 2 ^ 32

/-- The 4 little-endian bytes of an `int32_t` cast of `i`
(`writeIntBinary(static_cast<int32_t>(i))`). -/
def int32Bytes (i : Int) : List Nat :=
  leBytes 4 (i % (2 ^ 32 : Int)).toNat

/-! ## CRC32 and the running checksum

`RK::getCRC32` is not part of the two source files.
Modelled from the spec: section 4.2 fixes it as the IEEE 802.3 CRC-32
(reflected polynomial `0xEDB88320`, initial value `0xFFFFFFFF`, final
XOR `0xFFFFFFFF`). -/

def crc32Step (c : Nat) : Nat :=
  if c % 2 = 1 then Nat.xor (c / 2) 0xEDB88320 else c / 2

def crc32ByteStep (c b : Nat) : Nat :=
  let c0 := Nat.xor c (b % 256)
  crc32Step (crc32Step (crc32Step (crc32Step (crc32Step (crc32Step (crc32Step (crc32Step c0)))))))

/-- Modelled from the spec: `RK::getCRC32` (declared in headers outside the
two given source files), the IEEE CRC-32 of a byte string, spec section 4.2. -/
def getCRC32 (bs : List Nat) : Nat :=
  Nat.xor (bs.foldl crc32ByteStep 0xFFFFFFFF) 0xFFFFFFFF

/-- `updateCheckSum` (`SnapshotCommon.cpp:379`): lays `checksum` and
`data_crc` into the two 32-bit halves of a 64-bit union (`crc[0]` is the
low half on the little-endian target) and takes the CRC-32 of the 8 bytes
of that union. -/
def updateCheckSum (checksum data_crc : Nat) : Nat :=
  getCRC32 (leBytes 8 (checksum % 2 ^ 32 + data_crc % 2 ^ 32 * 2 ^ 32))

/-! ## Magic constants

`isFileHeader`/`isFileTail` (`SnapshotCommon.cpp:52-70`) compare against
the bytes of the ASCII tags `SnapHead` and `SnapTail`. -/

def MAGIC_SNAPSHOT_HEAD : List Nat := [83, 110, 97, 112, 72, 101, 97, 100]

def MAGIC_SNAPSHOT_TAIL : List Nat := [83, 110, 97, 112, 84, 97, 105, 108]

/-! ## Batch body codec (V2+) -/

/-- `SnapshotBatchBody` (`SnapshotCommon.cpp:617-665`).  The `type` field
is the `SnapshotBatchType` enum stored as an `Int`; `elements` are opaque
byte strings.  `cs_new`/`make_shared` value-initializes the struct, so a
default-constructed body has `type = 0` and no elements. -/
structure SnapshotBatchBody where
  type : Int
  elements : List (List Nat)
deriving DecidableEq

instance : Inhabited SnapshotBatchBody := ⟨⟨0, []⟩⟩

/-- `SnapshotBatchBody::serialize` (`SnapshotCommon.cpp:632`):
`type (i32 LE) | count (i32 LE) | (len (i32 LE) | bytes) * count`. -/
def SnapshotBatchBody.serialize (b : SnapshotBatchBody) : List Nat :=
  int32Bytes b.type ++ int32Bytes (b.elements.length : Int) ++
    b.elements.flatMap (fun e => int32Bytes (e.length : Int) ++ e)

/-- Failure of the batch codec (`readIntBinary`/`readStrict` hitting the
end of the input, or `std::string::resize` on a negative-cast length). -/
inductive ParseError where
  | malformed
deriving DecidableEq

deriving instance DecidableEq for Except

/-- Read exactly `n` bytes (`in.readStrict`): fails when fewer remain. -/
def readN (n : Nat) (s : List Nat) : Except ParseError (List Nat × List Nat) :=
  if s.length < n then .error .malformed else .ok (s.take n, s.drop n)

/-- `readIntBinary` of an `int32_t`: 4 raw bytes, little-endian, signed. -/
def readInt32 (s : List Nat) : Except ParseError (Int × List Nat) :=
  match readN 4 s with
  | .error e => .error e
  | .ok (bs, rest) => .ok (asInt32 (decodeLeNat bs), rest)

/-- The element loop of `SnapshotBatchBody::parse` (`SnapshotCommon.cpp:655`):
for each of `count` elements read an `int32_t` length then that many bytes.
A negative length makes `element.resize`/`readStrict` fail (the `int32_t`
is converted to a huge `size_t`), modelled as a parse error. -/
def parseElems : Nat → List Nat → Except ParseError (List (List Nat))
  | 0, _ => .ok []
  | k + 1, s =>
    match readInt32 s with
    | .error e => .error e
    | .ok (sz, rest) =>
      if sz < 0 then .error .malformed
      else
        match readN sz.toNat rest with
        | .error e => .error e
        | .ok (e, rest2) =>
          match parseElems k rest2 with
          | .error err => .error err
          | .ok es => .ok (e :: es)

/-- `SnapshotBatchBody::parse` (`SnapshotCommon.cpp:645`): reads `type`,
`element_count` (both `int32_t`) and then the elements.  A negative
`element_count` makes the `for (int i = 0; i < element_count; i++)` loop
run zero times, hence `Int.toNat`.  Trailing input is ignored. -/
def SnapshotBatchBody.parse (input : List Nat) : Except ParseError SnapshotBatchBody :=
  match readInt32 input with
  | .error e => .error e
  | .ok (t, r1) =>
    match readInt32 r1 with
    | .error e => .error e
    | .ok (cnt, r2) =>
      match parseElems cnt.toNat r2 with
      | .error e => .error e
      | .ok es => .ok ⟨t, es⟩

/-! ## Snapshot file writer (V2) -/

/-- `openFileAndWriteHeader` (`SnapshotCommon.cpp:72`): magic `SnapHead`
followed by the version byte. -/
def openFileAndWriteHeader (version : Nat) : List Nat :=
  MAGIC_SNAPSHOT_HEAD ++ [version % 256]

/-- `writeTailAndClose` (`SnapshotCommon.cpp:80`): magic `SnapTail`
followed by the `UInt32` checksum, little-endian. -/
def writeTailAndClose (checksum : Nat) : List Nat :=
  MAGIC_SNAPSHOT_TAIL ++ leBytes 4 checksum

/-- `saveBatchV2` (`SnapshotCommon.cpp:359`): a null batch pointer is
replaced by a default-constructed (empty) body; the body is serialized and
framed as `data_length | data_crc | body`.  The two header fields are the
`SnapshotBatchHeader` ones; modelled from the spec (section 3, the header
struct is declared outside the given sources): two little-endian 64-bit
integers, 16 bytes in total.  Returns the frame bytes and the body CRC. -/
def saveBatchV2 (batch : Option SnapshotBatchBody) : List Nat × Nat :=
  let b := batch.getD default
  let body := SnapshotBatchBody.serialize b
  let crc := getCRC32 body
  (leBytes 8 body.length ++ leBytes 8 crc ++ body, crc)

/-- State threaded through a V2 serializer loop: bytes written so far after
the file header, the current (possibly null) batch, the running checksum. -/
structure SerializerState where
  out : List Nat
  batch : Option SnapshotBatchBody
  checksum : Nat
deriving DecidableEq

/-- One loop iteration of `serializeAclsV2` (`SnapshotCommon.cpp:413-439`)
at position `index` with pre-encoded entry `e`: at a `save_batch_size`
boundary the current batch is flushed (`saveBatchAndUpdateCheckSumV2`,
skipped for the very first entry) and a fresh batch with the collection's
type is started; the entry is appended to the current batch. -/
def serializeV2LoopStep (btype : Int) (save_batch_size : Nat)
    (st : SerializerState) (ie : Nat × List Nat) : SerializerState :=
  let st1 :=
    if ie.1 % save_batch_size = 0 then
      if ie.1 ≠ 0 then
        let (bytes, crc) := saveBatchV2 st.batch
        { out := st.out ++ bytes, batch := some ⟨btype, []⟩,
          checksum := updateCheckSum st.checksum crc }
      else
        { st with batch := some ⟨btype, []⟩ }
    else st
  { st1 with
    batch := some ⟨(st1.batch.getD default).type,
                   (st1.batch.getD default).elements ++ [ie.2]⟩ }

/-- `SnapshotBatchType` value for ACL batches.  Modelled from the spec:
the enum's numeric values are declared outside the given sources; no
theorem below depends on the exact value. -/
def SNAPSHOT_TYPE_ACLMAP : Int := 5

/-- `SnapshotBatchType` value for ephemeral batches.  Modelled from the
spec, as for `SNAPSHOT_TYPE_ACLMAP`. -/
def SNAPSHOT_TYPE_DATA_EPHEMERAL : Int := 1

/-- `serializeAclsV2` (`SnapshotCommon.cpp:400`): header and version byte,
the batching loop over the (pre-encoded) ACL entries, a final flush of the
last (possibly still-null) batch, then tail and checksum.  The per-entry
`Coordination::write` encoding lives outside the given sources, so entries
are taken as already-encoded byte strings. -/
def serializeAclsV2 (entries : List (List Nat)) (save_batch_size : Nat)
    (version : Nat) : List Nat :=
  let header := openFileAndWriteHeader version
  let stN := entries.enum.foldl (serializeV2LoopStep SNAPSHOT_TYPE_ACLMAP save_batch_size)
    ⟨[], none, 0⟩
  let (bytes, crc) := saveBatchV2 stN.batch
  let checksum := updateCheckSum stN.checksum crc
  header ++ stN.out ++ bytes ++ writeTailAndClose checksum

/-- One loop iteration of `serializeEphemeralsV2` (`SnapshotCommon.cpp:465-495`):
same batching as the ACL loop but flushing with plain `saveBatchV2` —
no checksum is maintained. -/
def ephemeralsV2LoopStep (save_batch_size : Nat)
    (st : List Nat × Option SnapshotBatchBody) (ie : Nat × List Nat) :
    List Nat × Option SnapshotBatchBody :=
  let st1 :=
    if ie.1 % save_batch_size = 0 then
      if ie.1 ≠ 0 then
        ((st.1 ++ (saveBatchV2 st.2).1), some ⟨SNAPSHOT_TYPE_DATA_EPHEMERAL, []⟩)
      else
        (st.1, some ⟨SNAPSHOT_TYPE_DATA_EPHEMERAL, []⟩)
    else st
  (st1.1, some ⟨(st1.2.getD default).type, (st1.2.getD default).elements ++ [ie.2]⟩)

/-- `serializeEphemeralsV2` (`SnapshotCommon.cpp:448`): on an empty map it
returns 0 having written nothing; otherwise it opens the file *without*
writing the `SnapHead` header or version byte, writes the batches, flushes
the last batch, closes *without* writing `SnapTail` or a checksum, and
returns the sentinel 1.  Result: (file bytes, return value). -/
def serializeEphemeralsV2 (entries : List (List Nat)) (save_batch_size : Nat) :
    List Nat × Nat :=
  if entries.isEmpty then ([], 0)
  else
    let stN := entries.enum.foldl (ephemeralsV2LoopStep save_batch_size) ([], none)
    (stN.1 ++ (saveBatchV2 stN.2).1, 1)

/-! ## Well-formedness of a serialized batch body

`elemsFit k s` holds when `k` length-prefixed elements can be decoded from
`s` without any read passing the end; `fitsBatchBody` adds the 8 bytes of
`type` and `count`.  These express the spec's side of claim C8. -/

def elemsFit : Nat → List Nat → Bool
  | 0, _ => true
  | k + 1, s =>
    if s.length < 4 then false
    else
      let sz := asInt32 (decodeLeNat (s.take 4))
      if sz < 0 then false
      else if (s.drop 4).length < sz.toNat then false
      else elemsFit k ((s.drop 4).drop sz.toNat)

def fitsBatchBody (input : List Nat) : Bool :=
  if input.length < 8 then false
  else elemsFit (asInt32 (decodeLeNat ((input.drop 4).take 4))).toNat (input.drop 8)

/-! ## Commit processor (`SvsKeeperCommitProcessor.h`, `run3` variant)

The worker state is modelled per session: the source keys
`pending_requests` and `pending_write_requests` by `session_id` in
`unordered_map`s and the four phases of one `run3` iteration touch each
session's lists independently, so a session's slice of the global state is
a state machine of its own.  A session key holding an empty vector is
indistinguishable from an absent key in every phase (the source only ever
checks `.empty()` through `operator[]` and erases emptied entries), so the
maps appear here as plain lists.  One iteration of the worker loop is one
atomic step; `processRequest`, `commit` and `onError` append to the input
structures between iterations.  A C++ `throw` inside the `try` block ends
the iteration (the `catch` swallows it and the loop continues), so the
model of an iteration returns the state reached at the throw point. -/

/-- A client request (`RequestForSession` restricted to the fields `run3`
inspects): session id, xid and `isReadRequest()`. -/
structure Req where
  sid : Int
  xid : Int
  isRead : Bool
deriving DecidableEq

/-- The ZooKeeper error codes the processor itself writes into responses. -/
inductive ZErr where
  | ZOPERATIONTIMEOUT
  | ZCONNECTIONLOSS
  | ZSESSIONEXPIRED
deriving DecidableEq

/-- The `nuraft::cmd_result_code` distinction `run3` makes. -/
inductive NuCode where
  | TIMEOUT
  | OTHER
deriving DecidableEq

/-- A response pushed to `responses_queue`: either produced by
`storage.processRequest` for an applied request (`fromStore`), or built
directly by the processor with an explicit `xid`, `zxid` and error code
(`failed`, used by the commit-error and shutdown paths). -/
inductive Resp where
  | fromStore (sid xid : Int)
  | failed (sid xid zxid : Int) (err : ZErr)
deriving DecidableEq

/-- One entry of the `errors` map for this session:
`(xid, (accepted, error_code))`. -/
structure ErrEntry where
  exid : Int
  accepted : Bool
  code : NuCode
deriving DecidableEq

/-- The xid carried by a response. -/
def Resp.rxid : Resp → Int
  | .fromStore _ x => x
  | .failed _ x _ _ => x

/-- Per-session slice of the commit processor state: this session's
requests inside `requests_queue`, `committed_queue` and `errors`, its
`pending_requests` and `pending_write_requests` lists, and the responses
pushed so far for it (in push order). -/
structure CPState where
  inQ : List Req
  comQ : List Req
  errs : List ErrEntry
  pend : List Req
  pendW : List Req
  resps : List Resp
deriving DecidableEq

def cpInit : CPState := ⟨[], [], [], [], [], []⟩

def isWrite (r : Req) : Bool := !r.isRead

/-- Translation of a commit error into a response error
(`SvsKeeperCommitProcessor.h:390`). -/
def nuErrToZ : NuCode → ZErr
  | .TIMEOUT => .ZOPERATIONTIMEOUT
  | .OTHER => .ZCONNECTIONLOSS

/-- Remove the first request whose xid is `x`
(the erase-on-match loops at `SvsKeeperCommitProcessor.h:354-380`). -/
def removeFirstXid (x : Int) : List Req → Option Req × List Req
  | [] => (none, [])
  | r :: rest =>
    if r.xid = x then (some r, rest)
    else
      let (f, l) := removeFirstXid x rest
      (f, r :: l)

/-- The error-drain phase (`SvsKeeperCommitProcessor.h:340-409`) acting on
the first error entry: the matching request (if any) is erased from
`pending_requests` and from `pending_write_requests`; on a match a
response `(xid, zxid = 0, ZOPERATIONTIMEOUT/ZCONNECTIONLOSS)` is pushed
and the error entry erased, then the worker throws unconditionally (for
both values of `accepted`); with no match it throws a logic error without
erasing the entry.  Either throw ends the iteration. -/
def handleError (e : ErrEntry) (rest : List ErrEntry) (s : CPState) : CPState :=
  let (found, pend2) := removeFirstXid e.exid s.pend
  let pendW2 := (removeFirstXid e.exid s.pendW).2
  match found with
  | some r =>
    { s with pend := pend2, pendW := pendW2, errs := rest,
             resps := s.resps ++ [Resp.failed r.sid r.xid 0 (nuErrToZ e.code)] }
  | none => { s with pend := pend2, pendW := pendW2 }

/-- The input-drain phase (`SvsKeeperCommitProcessor.h:415-426`): every
request in `requests_queue` is appended to `pending_requests`; writes are
also appended to `pending_write_requests`. -/
def drainInput (s : CPState) : CPState :=
  { s with inQ := [], pend := s.pend ++ s.inQ,
           pendW := s.pendW ++ s.inQ.filter isWrite }

/-- Guard of the read-serving loop (`SvsKeeperCommitProcessor.h:437`):
the head request is served while `pending_write_requests` is empty or its
xid is strictly below the xid of the head pending write. -/
def headWriteBlocks (pendW : List Req) (r : Req) : Bool :=
  match pendW with
  | [] => false
  | w :: _ => decide (w.xid ≤ r.xid)

/-- The read-serving loop body (`SvsKeeperCommitProcessor.h:434-451`):
serve-and-erase from the head while the guard admits it, asserting that
each served head is a read (a write head under the guard throws a logic
error, ending the iteration — third component `true`). -/
def serveGo (pendW : List Req) : List Req → List Resp × List Req × Bool
  | [] => ([], [], false)
  | r :: rest =>
    if headWriteBlocks pendW r then ([], r :: rest, false)
    else if r.isRead then
      let (rs, rem, thr) := serveGo pendW rest
      (Resp.fromStore r.sid r.xid :: rs, rem, thr)
    else ([], r :: rest, true)

/-- The read-serving phase (`SvsKeeperCommitProcessor.h:428-457`) for this
session; the Boolean records whether the phase threw. -/
def serveReads (s : CPState) : CPState × Bool :=
  let (rs, rem, thr) := serveGo s.pendW s.pend
  ({ s with pend := rem, resps := s.resps ++ rs }, thr)

/-- The committed-write phase (`SvsKeeperCommitProcessor.h:460-492`),
popping at most `k` committed requests (the snapshot
`committed_request_size` taken at `:411`).  A popped commit for a session
with no pending writes is applied directly (another server's session);
otherwise the heads of both pending lists must carry exactly the committed
xid — a mismatch throws (ending the iteration with the commit already
consumed), a match applies the request, pushes its response and pops both
heads. -/
def applyGo : Nat → CPState → CPState
  | 0, s => s
  | k + 1, s =>
    match s.comQ with
    | [] => s
    | c :: rest =>
      match s.pendW with
      | [] =>
        applyGo k { s with comQ := rest,
                           resps := s.resps ++ [Resp.fromStore c.sid c.xid] }
      | w :: wt =>
        if w.xid = c.xid then
          match s.pend with
          | [] => { s with comQ := rest }
          | p :: pt =>
            if p.xid = c.xid then
              applyGo k { s with comQ := rest, pend := pt, pendW := wt,
                                 resps := s.resps ++ [Resp.fromStore c.sid c.xid] }
            else { s with comQ := rest }
        else { s with comQ := rest }

/-- One iteration of the `run3` worker loop
(`SvsKeeperCommitProcessor.h:316-500`): drain the first error entry if any
(always ending the iteration by a throw), otherwise drain the input queue,
serve safe reads (a logic-error throw there skips the commit phase), and
apply up to `k` committed writes. -/
def iterateOnce (k : Nat) (s : CPState) : CPState :=
  match s.errs with
  | e :: rest => handleError e rest s
  | [] =>
    let s1 := drainInput s
    let sr := serveReads s1
    if sr.2 then sr.1 else applyGo k sr.1

/-- `processRequest` (`SvsKeeperCommitProcessor.h:26-32`): push to
`requests_queue` unless `shutdown_called` is set, in which case the
request is silently dropped. -/
def processRequest (shutdown_called : Bool) (q : List Req) (r : Req) : List Req :=
  if shutdown_called then q else q ++ [r]

/-- The drain loop of `shutdown` (`SvsKeeperCommitProcessor.h:513-521`):
each request still in `requests_queue` gets a response with its own xid,
`zxid = 0` and `ZSESSIONEXPIRED`, appended to the response queue. -/
def shutdownDrain (q : List Req) (resps : List Resp) : List Resp :=
  resps ++ q.map (fun r => Resp.failed r.sid r.xid 0 ZErr.ZSESSIONEXPIRED)

/-! ## Trace semantics of the commit processor

External events (`processRequest`, `commit`) happen between worker
iterations; an iteration is atomic.  The side conditions on the event
steps state the environment assumptions of the per-session ordering
claim: clients submit a session's requests with strictly increasing xids,
and the consensus layer commits exactly the session's enqueued writes, at
most once each, in submission order (`committed_queue` receives them in
consensus order, spec section 5). -/

open List

/-- All xids the processor has seen for this session and not yet retired:
pending, still queued, or already answered. -/
def allXids (s : CPState) : List Int :=
  (s.pend ++ s.inQ).map Req.xid ++ s.resps.map Resp.rxid

/-- One labelled step of the per-session system: a client enqueue with a
fresh, larger xid; a consensus commit of a previously enqueued write (in
order, at most once); or one worker iteration processing up to `k`
committed requests. -/
inductive CPStep : CPState → CPState → Prop where
  | enq (r : Req) (s : CPState) (h : ∀ x ∈ allXids s, x < r.xid) :
      CPStep s { s with inQ := s.inQ ++ [r] }
  | commit (c : Req) (s : CPState)
      (h : (s.comQ ++ [c]) <+ (s.pend ++ s.inQ).filter isWrite) :
      CPStep s { s with comQ := s.comQ ++ [c] }
  | iter (k : Nat) (s : CPState) : CPStep s (iterateOnce k s)

/-- States reachable from the idle processor. -/
inductive CPReach : CPState → Prop where
  | init : CPReach cpInit
  | step {s t : CPState} : CPReach s → CPStep s t → CPReach t

/-- Inductive invariant of the per-session system: pending-then-queued
xids strictly increase, `pending_write_requests` is exactly the write
sublist of `pending_requests`, answered xids strictly increase and lie
below every pending or queued xid, the committed queue is a sublist of the
outstanding writes, and no error entries exist (the ordering claim
quantifies over read/write/commit interleavings only). -/
def Inv (s : CPState) : Prop :=
  Sorted (· < ·) ((s.pend ++ s.inQ).map Req.xid) ∧
  s.pendW = s.pend.filter isWrite ∧
  Sorted (· < ·) (s.resps.map Resp.rxid) ∧
  (∀ a ∈ s.resps.map Resp.rxid, ∀ b ∈ (s.pend ++ s.inQ).map Req.xid, a < b) ∧
  s.comQ <+ (s.pend ++ s.inQ).filter isWrite ∧
  s.errs = []

/-! ## Scenario states

The read-write interleaving scenario of spec section 8 (`R1, R2, W3, R4`
submitted on one session). -/

def c4Start : CPState :=
  { cpInit with inQ := [⟨1, 1, true⟩, ⟨1, 2, true⟩, ⟨1, 3, false⟩, ⟨1, 4, true⟩] }

def c4AfterCommit : CPState :=
  { iterateOnce 0 c4Start with comQ := [⟨1, 3, false⟩] }

/-- A state with one error entry, a matching pending write, and non-empty
input and committed queues (the error-drain iteration must ignore them). -/
def werr : CPState :=
  { inQ := [⟨2, 9, true⟩], comQ := [⟨2, 3, false⟩], errs := [⟨4, true, NuCode.OTHER⟩],
    pend := [⟨2, 3, false⟩, ⟨2, 4, false⟩], pendW := [⟨2, 3, false⟩, ⟨2, 4, false⟩],
    resps := [] }

/-- A sorted two-request pending state (one read before one write). -/
def c4WitnessState : CPState :=
  { cpInit with pend := [⟨1, 1, true⟩, ⟨1, 2, false⟩], pendW := [⟨1, 2, false⟩] }

/-! ## Arithmetic helper lemmas -/

theorem leBytes_length (w n : Nat) : (leBytes w n).length = w := by
  induction w generalizing n with
  | zero => rfl
  | succ w ih => simp [leBytes, ih]

theorem decodeLeNat_leBytes (w n : Nat) : decodeLeNat (leBytes w n) = n % 256 ^ w := by
  induction w generalizing n with
  | zero => simp [leBytes, decodeLeNat, Nat.mod_one]
  | succ w ih =>
    have h : (256 : Nat) ^ (w + 1) = 256 * 256 ^ w := by ring
    simp only [leBytes, decodeLeNat, List.foldr_cons]
    have ihn := ih (n / 256)
    simp only [decodeLeNat] at ihn
    rw [ihn, h, Nat.mod_mul]
    omega

theorem leBytes_append (a b x y : Nat) (hx : x < 256 ^ a) :
    leBytes (a + b) (x + y * 256 ^ a) = leBytes a x ++ leBytes b y := by
  induction a generalizing x with
  | zero =>
    have hx0 : x = 0 := Nat.lt_one_iff.mp (by simpa using hx)
    subst hx0
    simp [leBytes]
  | succ a ih =>
    have hidx : a + 1 + b = (a + b) + 1 := by omega
    rw [hidx]
    have hpow : (256 : Nat) ^ (a + 1) = 256 ^ a * 256 := by ring
    have hmod : (x + y * 256 ^ (a + 1)) % 256 = x % 256 := by
      rw [hpow, ← Nat.mul_assoc]
      exact Nat.add_mul_mod_self_right x (y * 256 ^ a) 256
    have hdiv : (x + y * 256 ^ (a + 1)) / 256 = x / 256 + y * 256 ^ a := by
      rw [hpow, ← Nat.mul_assoc]
      exact Nat.add_mul_div_right x (y * 256 ^ a) (by norm_num)
    have hxd : x / 256 < 256 ^ a := by
      rw [Nat.div_lt_iff_lt_mul (by norm_num : (0:Nat) < 256)]
      calc x < 256 ^ (a + 1) := hx
        _ = 256 ^ a * 256 := hpow
    simp only [leBytes, hmod, hdiv, ih (x / 256) hxd, List.cons_append]

theorem asInt32_decode_int32Bytes (i : Int) (h1 : -(2 ^ 31) ≤ i) (h2 : i < 2 ^ 31) :
    asInt32 (decodeLeNat (int32Bytes i)) = i := by
  have hnn : (0 : Int) ≤ i % 2 ^ 32 := Int.emod_nonneg i (by norm_num)
  have hlt : i % 2 ^ 32 < 2 ^ 32 := Int.emod_lt_of_pos i (by norm_num)
  have hchar : i % 2 ^ 32 = i ∨ i % 2 ^ 32 = i + 2 ^ 32 := by omega
  have hdec : decodeLeNat (int32Bytes i) = (i % 2 ^ 32).toNat := by
    rw [int32Bytes, decodeLeNat_leBytes]
    exact Nat.mod_eq_of_lt (by omega)
  rw [hdec, asInt32]
  have hcast : ((i % 2 ^ 32).toNat : Int) = i % 2 ^ 32 := Int.toNat_of_nonneg hnn
  split
  · omega
  · omega

/-! ## Stream-reading helper lemmas -/

theorem readN_append (l r : List Nat) : readN l.length (l ++ r) = .ok (l, r) := by
  rw [readN]
  have hlen : ¬ (l ++ r).length < l.length := by simp
  rw [if_neg hlen, List.take_left, List.drop_left]

theorem readInt32_int32Bytes (i : Int) (r : List Nat) (h1 : -(2 ^ 31) ≤ i) (h2 : i < 2 ^ 31) :
    readInt32 (int32Bytes i ++ r) = .ok (i, r) := by
  have hl : (int32Bytes i).length = 4 := leBytes_length 4 _
  have hr : readN 4 (int32Bytes i ++ r) = .ok (int32Bytes i, r) := by
    rw [← hl]; exact readN_append _ _
  rw [readInt32, hr]
  simp [asInt32_decode_int32Bytes i h1 h2]

theorem parseElems_serialize (es : List (List Nat)) (h : ∀ e ∈ es, e.length < 2 ^ 31) :
    parseElems es.length (es.flatMap (fun e => int32Bytes (e.length : Int) ++ e)) = .ok es := by
  induction es with
  | nil => rfl
  | cons e es ih =>
    have he : e.length < 2 ^ 31 := h e (by simp)
    have hes : ∀ x ∈ es, x.length < 2 ^ 31 := fun x hx => h x (by simp [hx])
    have hnn : (0 : Int) ≤ (e.length : Int) := Int.natCast_nonneg _
    show parseElems (es.length + 1) _ = _
    rw [List.flatMap_cons, List.append_assoc]
    have hread : readInt32 (int32Bytes (e.length : Int) ++
        (e ++ es.flatMap fun x => int32Bytes (x.length : Int) ++ x)) =
        .ok ((e.length : Int), e ++ es.flatMap fun x => int32Bytes (x.length : Int) ++ x) :=
      readInt32_int32Bytes _ _ (le_trans (by norm_num) hnn) (by exact_mod_cast he)
    have hneg : ¬ ((e.length : Int) < 0) := Int.not_lt.mpr hnn
    have htn : (e.length : Int).toNat = e.length := Int.toNat_natCast _
    simp only [parseElems, hread, if_neg hneg, htn, readN_append e _, ih hes]

theorem parseElems_of_elemsFit_false (k : Nat) (s : List Nat)
    (h : elemsFit k s = false) : parseElems k s = .error .malformed := by
  induction k generalizing s with
  | zero => simp [elemsFit] at h
  | succ k ih =>
    rw [elemsFit] at h
    rw [parseElems, readInt32, readN]
    by_cases h4 : s.length < 4
    · rw [if_pos h4]
    · rw [if_neg h4] at h ⊢
      simp only []
      by_cases hneg : asInt32 (decodeLeNat (s.take 4)) < 0
      · rw [if_pos hneg]
      · rw [if_neg hneg] at h ⊢
        rw [readN]
        by_cases hlen : (s.drop 4).length < (asInt32 (decodeLeNat (s.take 4))).toNat
        · rw [if_pos hlen]
        · rw [if_neg hlen] at h ⊢
          simp only [ih _ h]

/-- C8: any input in which a decoded element length (or reading the type,
count or a length itself) would pass the end of the remaining input makes
`SnapshotBatchBody::parse` fail with the `Malformed` error instead of
returning a batch body. -/
theorem snapshotBatchBody_parse_malformed_on_overrun (input : List Nat)
    (h : fitsBatchBody input = false) :
    SnapshotBatchBody.parse input = .error .malformed := by
  rw [fitsBatchBody] at h
  rw [SnapshotBatchBody.parse, readInt32, readN]
  by_cases h4 : input.length < 4
  · rw [if_pos h4]
  · rw [if_neg h4]
    simp only [readInt32, readN]
    by_cases h8 : (input.drop 4).length < 4
    · rw [if_pos h8]
    · rw [if_neg h8]
      simp only []
      have hlen : ¬ input.length < 8 := by
        simp only [List.length_drop] at h8
        omega
      rw [if_neg hlen] at h
      have hdd : List.drop 4 (List.drop 4 input) = List.drop 8 input := by
        rw [List.drop_drop]
      simp only [hdd, parseElems_of_elemsFit_false _ _ h]

/-- C8 witness: a batch announcing one element but providing none. -/
theorem snapshotBatchBody_parse_malformed_on_overrun_witness :
    fitsBatchBody [0, 0, 0, 0, 1, 0, 0, 0] = false ∧
      SnapshotBatchBody.parse [0, 0, 0, 0, 1, 0, 0, 0] = .error .malformed :=
  ⟨by decide, snapshotBatchBody_parse_malformed_on_overrun _ (by decide)⟩

/-- C7: `parse` is a left inverse of `serialize` on every batch body whose
type tag fits in an `int32_t` and whose element count and element sizes
are representable (below `2 ^ 31`): the type and the element sequence,
including its order, are recovered exactly. -/
theorem snapshotBatchBody_parse_serialize_roundtrip (b : SnapshotBatchBody)
    (ht1 : -(2 ^ 31) ≤ b.type) (ht2 : b.type < 2 ^ 31)
    (hc : b.elements.length < 2 ^ 31)
    (hlen : ∀ e ∈ b.elements, e.length < 2 ^ 31) :
    SnapshotBatchBody.parse (SnapshotBatchBody.serialize b) = .ok b := by
  obtain ⟨t, es⟩ := b
  simp only at ht1 ht2 hc hlen
  rw [SnapshotBatchBody.serialize]
  simp only [List.append_assoc]
  have hread : readInt32 (int32Bytes (es.length : Int) ++
      es.flatMap fun e => int32Bytes (e.length : Int) ++ e) =
      .ok ((es.length : Int), es.flatMap fun e => int32Bytes (e.length : Int) ++ e) :=
    readInt32_int32Bytes _ _ (le_trans (by norm_num) (Int.natCast_nonneg _))
      (by exact_mod_cast hc)
  have htn : (es.length : Int).toNat = es.length := Int.toNat_natCast _
  simp only [SnapshotBatchBody.parse, readInt32_int32Bytes t _ ht1 ht2, hread, htn,
    parseElems_serialize es hlen]

/-- C7 witness: a concrete two-element body round trips. -/
theorem snapshotBatchBody_parse_serialize_roundtrip_witness :
    SnapshotBatchBody.parse (SnapshotBatchBody.serialize ⟨5, [[1, 2, 3], []]⟩) =
      .ok ⟨5, [[1, 2, 3], []]⟩ :=
  snapshotBatchBody_parse_serialize_roundtrip ⟨5, [[1, 2, 3], []]⟩
    (by norm_num) (by norm_num) (by norm_num) (by decide)

/-- C9: `updateCheckSum` equals the CRC-32 of the 8-byte buffer formed by
laying the running checksum and the batch CRC back-to-back as two
little-endian 32-bit values (the serializers start the fold at 0). -/
theorem updateCheckSum_folds_le_concat (c d : Nat) (hc : c < 2 ^ 32) (hd : d < 2 ^ 32) :
    updateCheckSum c d = getCRC32 (leBytes 4 c ++ leBytes 4 d) := by
  rw [updateCheckSum, Nat.mod_eq_of_lt hc, Nat.mod_eq_of_lt hd]
  have h : leBytes 8 (c + d * 2 ^ 32) = leBytes 4 c ++ leBytes 4 d := by
    have := leBytes_append 4 4 c d (by norm_num at hc ⊢; omega)
    norm_num at this ⊢
    exact this
  rw [h]

/-- C9 witness: the fold at a concrete pair of 32-bit values. -/
theorem updateCheckSum_folds_le_concat_witness :
    3 < 2 ^ 32 ∧ 5 < 2 ^ 32 ∧
      updateCheckSum 3 5 = getCRC32 (leBytes 4 3 ++ leBytes 4 5) :=
  ⟨by norm_num, by norm_num,
    updateCheckSum_folds_le_concat 3 5 (by norm_num) (by norm_num)⟩

/-- C2 counterexample: serializing an empty ACL map at version V3 does
*not* produce `SnapHead | 0x03 | SnapTail | 0x00000000`; the final flush
writes one empty batch whose serialized body is 8 bytes, and the tail
checksum is the fold of that batch's CRC, which is nonzero. -/
theorem serializeAclsV2_empty_not_bare_header_tail :
    serializeAclsV2 [] 10 3 ≠
      MAGIC_SNAPSHOT_HEAD ++ [3] ++ MAGIC_SNAPSHOT_TAIL ++ leBytes 4 0 := by
  decide

/-- C2 (amended): serializing an empty ACL map at version V3 yields
`SnapHead | 0x03 |` one batch frame with `data_length = 8`, body
`type = 0, count = 0` (8 zero bytes) and its CRC `0x6522DF69`,
`| SnapTail |` the fold `updateCheckSum 0 0x6522DF69 = 0x3FB3C61A`,
which is nonzero. -/
theorem serializeAclsV2_empty_file_layout :
    serializeAclsV2 [] 10 3 =
      MAGIC_SNAPSHOT_HEAD ++ [3] ++ leBytes 8 8 ++ leBytes 8 1696784233 ++
        [0, 0, 0, 0, 0, 0, 0, 0] ++ MAGIC_SNAPSHOT_TAIL ++ leBytes 4 1068746266 ∧
    SnapshotBatchBody.serialize default = [0, 0, 0, 0, 0, 0, 0, 0] ∧
    getCRC32 [0, 0, 0, 0, 0, 0, 0, 0] = 1696784233 ∧
    updateCheckSum 0 1696784233 = 1068746266 ∧ (1068746266 : Nat) ≠ 0 := by
  refine ⟨by decide, by decide, by decide, by decide, by decide⟩

/-- C6: `serializeEphemeralsV2` does *not* follow the shared V2+ skeleton:
on a non-empty ephemerals map the produced file neither starts with the
`SnapHead` magic (no header, no version byte) nor ends with the
`SnapTail` magic and a checksum; the function returns the sentinel 1
(and writes nothing at all for an empty map). -/
theorem serializeEphemeralsV2_omits_header_and_tail :
    (serializeEphemeralsV2 [[42]] 10).2 = 1 ∧
    (serializeEphemeralsV2 [[42]] 10).1.take 8 ≠ MAGIC_SNAPSHOT_HEAD ∧
    ((serializeEphemeralsV2 [[42]] 10).1.drop
        ((serializeEphemeralsV2 [[42]] 10).1.length - 12)).take 8 ≠
      MAGIC_SNAPSHOT_TAIL ∧
    serializeEphemeralsV2 [] 10 = ([], 0) := by
  refine ⟨by decide, by decide, by decide, by decide⟩

/-! ## Commit-processor lemmas -/

theorem serveGo_filter (pend : List Req)
    (hs : Sorted (· < ·) (pend.map Req.xid)) :
    serveGo (pend.filter isWrite) pend =
      ((pend.takeWhile Req.isRead).map (fun r => Resp.fromStore r.sid r.xid),
        pend.dropWhile Req.isRead, false) := by
  induction pend with
  | nil => rfl
  | cons r rest ih =>
    rw [List.map_cons, List.sorted_cons] at hs
    obtain ⟨hlt, hrest⟩ := hs
    by_cases hr : r.isRead
    · have hfil : (r :: rest).filter isWrite = rest.filter isWrite := by
        simp [List.filter_cons, isWrite, hr]
      have hblock : headWriteBlocks (rest.filter isWrite) r = false := by
        cases hw : rest.filter isWrite with
        | nil => rfl
        | cons w ws =>
          have hwmem : w ∈ rest.filter isWrite := by
            rw [hw]; exact List.mem_cons_self _ _
          have hwr : w ∈ rest := List.mem_of_mem_filter hwmem
          have hx : r.xid < w.xid := hlt _ (List.mem_map_of_mem Req.xid hwr)
          simp only [headWriteBlocks, decide_eq_false_iff_not]
          omega
      rw [hfil]
      simp only [serveGo, hblock, Bool.false_eq_true, if_false, hr, if_true,
        ih hrest, List.takeWhile_cons, List.dropWhile_cons, List.map_cons]
    · have hrb : r.isRead = false := Bool.eq_false_iff.mpr hr
      have hblock : headWriteBlocks ((r :: rest).filter isWrite) r = true := by
        have hfil : (r :: rest).filter isWrite = r :: rest.filter isWrite := by
          simp [List.filter_cons, isWrite, hrb]
        rw [hfil]
        simp [headWriteBlocks]
      simp only [serveGo, hblock, if_true, List.takeWhile_cons, List.dropWhile_cons,
        hrb, Bool.false_eq_true, if_false, List.map_nil]

/-- C4: in the read-serving phase, on any state satisfying the worker's
per-session invariants (xids strictly increase along the pending list and
the pending-writes list is its write sublist), the worker serves and
removes exactly the maximal read prefix of the pending list — each served
head is a read, equivalently has xid strictly below the head pending
write, and the phase stops at the first write without throwing.  In the
`R1, R2, W3, R4` scenario the two leading reads are answered before W3's
commit arrives, R4 is not answered while W3 is uncommitted, and R4 is
answered only after W3's commit has been applied. -/
theorem run3_read_serving_phase :
    (∀ s : CPState, Sorted (· < ·) (s.pend.map Req.xid) →
      s.pendW = s.pend.filter isWrite →
      serveReads s =
        ({ s with
            pend := s.pend.dropWhile Req.isRead,
            resps := s.resps ++ (s.pend.takeWhile Req.isRead).map
              (fun r => Resp.fromStore r.sid r.xid) }, false)) ∧
    (iterateOnce 0 c4Start).resps = [Resp.fromStore 1 1, Resp.fromStore 1 2] ∧
    (iterateOnce 0 (iterateOnce 0 c4Start)).resps =
      [Resp.fromStore 1 1, Resp.fromStore 1 2] ∧
    (iterateOnce 1 c4AfterCommit).resps =
      [Resp.fromStore 1 1, Resp.fromStore 1 2, Resp.fromStore 1 3] ∧
    (iterateOnce 0 (iterateOnce 1 c4AfterCommit)).resps =
      [Resp.fromStore 1 1, Resp.fromStore 1 2, Resp.fromStore 1 3,
        Resp.fromStore 1 4] := by
  refine ⟨?_, by decide, by decide, by decide, by decide⟩
  intro s hs hw
  rw [serveReads, hw, serveGo_filter s.pend hs]

/-- C4 witness: the serve phase at a concrete sorted state. -/
theorem run3_read_serving_phase_witness :
    serveReads c4WitnessState =
      ({ c4WitnessState with
          pend := c4WitnessState.pend.dropWhile Req.isRead,
          resps := c4WitnessState.resps ++
            (c4WitnessState.pend.takeWhile Req.isRead).map
              (fun r => Resp.fromStore r.sid r.xid) }, false) :=
  run3_read_serving_phase.1 c4WitnessState (by decide) (by decide)

/-- C3: an error entry `(x, accepted, code)` whose xid matches the only
pending request of the session makes the next iteration remove that
request from both pending lists, push a response with that xid,
`zxid = 0` and error `ZOPERATIONTIMEOUT` for a TIMEOUT code and
`ZCONNECTIONLOSS` otherwise, and erase the error entry, leaving both
pending lists (and the error map) empty for the session. -/
theorem run3_commit_error_response (x : Int) (acc : Bool) (code : NuCode)
    (r : Req) (k : Nat) (hx : r.xid = x) :
    iterateOnce k
        { cpInit with pend := [r], pendW := [r], errs := [⟨x, acc, code⟩] } =
      { cpInit with resps := [Resp.failed r.sid r.xid 0 (nuErrToZ code)] } ∧
    nuErrToZ NuCode.TIMEOUT = ZErr.ZOPERATIONTIMEOUT ∧
    nuErrToZ NuCode.OTHER = ZErr.ZCONNECTIONLOSS := by
  subst hx
  refine ⟨?_, rfl, rfl⟩
  simp [iterateOnce, handleError, removeFirstXid, cpInit]

/-- C3 witness: the spec's commit-timeout scenario, session 5, xid 100. -/
theorem run3_commit_error_response_witness :
    iterateOnce 0
        { cpInit with
            pend := [⟨5, 100, false⟩], pendW := [⟨5, 100, false⟩],
            errs := [⟨100, true, NuCode.TIMEOUT⟩] } =
      { cpInit with
          resps := [Resp.failed 5 100 0 (nuErrToZ NuCode.TIMEOUT)] } ∧
    nuErrToZ NuCode.TIMEOUT = ZErr.ZOPERATIONTIMEOUT ∧
    nuErrToZ NuCode.OTHER = ZErr.ZCONNECTIONLOSS :=
  run3_commit_error_response 100 true NuCode.TIMEOUT ⟨5, 100, false⟩ 0 rfl

/-- C5: after `shutdown`, every request still in the input queue gets a
response carrying its own xid, `zxid = 0` and `ZSESSIONEXPIRED`; and once
`shutdown_called` is set, `processRequest` enqueues nothing. -/
theorem shutdown_expires_queued_and_drops_late :
    (∀ (q : List Req) (rs : List Resp) (r : Req), r ∈ q →
      Resp.failed r.sid r.xid 0 ZErr.ZSESSIONEXPIRED ∈ shutdownDrain q rs) ∧
    (∀ (q : List Req) (r : Req), processRequest true q r = q) := by
  constructor
  · intro q rs r hr
    exact List.mem_append_right _ (List.mem_map_of_mem _ hr)
  · intro q r
    rfl

/-- C5 witness: a concrete queued request is answered with
`ZSESSIONEXPIRED`, and a late `processRequest` is dropped. -/
theorem shutdown_expires_queued_and_drops_late_witness :
    Resp.failed 7 9 0 ZErr.ZSESSIONEXPIRED ∈ shutdownDrain [⟨7, 9, false⟩] [] ∧
      processRequest true [⟨7, 9, false⟩] ⟨7, 10, true⟩ = [⟨7, 9, false⟩] :=
  ⟨shutdown_expires_queued_and_drops_late.1 [⟨7, 9, false⟩] [] ⟨7, 9, false⟩
      (by decide),
    shutdown_expires_queued_and_drops_late.2 [⟨7, 9, false⟩] ⟨7, 10, true⟩⟩

/-- C10: an iteration that sees a non-empty error map handles exactly its
first entry and then throws unconditionally — for both values of
`accepted` — so it drains no input, serves no read, applies no committed
write, consumes at most one error entry, and pushes at most the one
commit-error response. -/
theorem run3_error_drain_throws_and_skips (k : Nat) (x : Int) (a : Bool)
    (c : NuCode) (rest : List ErrEntry) (s : CPState)
    (h : s.errs = ⟨x, a, c⟩ :: rest) :
    (iterateOnce k s).inQ = s.inQ ∧
    (iterateOnce k s).comQ = s.comQ ∧
    ((iterateOnce k s).errs = rest ∨ (iterateOnce k s).errs = s.errs) ∧
    ((iterateOnce k s).resps = s.resps ∨
      ∃ r : Req, (iterateOnce k s).resps =
        s.resps ++ [Resp.failed r.sid r.xid 0 (nuErrToZ c)]) ∧
    (∀ r : Req, (removeFirstXid x s.pend).1 = some r →
      iterateOnce k { s with errs := ⟨x, true, c⟩ :: rest } =
        iterateOnce k { s with errs := ⟨x, false, c⟩ :: rest }) := by
  rcases hrm : removeFirstXid x s.pend with ⟨f, p2⟩
  cases f with
  | some r =>
    have hit : iterateOnce k s =
        { s with
            pend := p2, pendW := (removeFirstXid x s.pendW).2, errs := rest,
            resps := s.resps ++ [Resp.failed r.sid r.xid 0 (nuErrToZ c)] } := by
      simp only [iterateOnce, h, handleError, hrm]
    refine ⟨by rw [hit], by rw [hit], Or.inl (by rw [hit]),
      Or.inr ⟨r, by rw [hit]⟩, ?_⟩
    intro r2 h2
    simp only [iterateOnce, handleError, hrm]
  | none =>
    have hit : iterateOnce k s =
        { s with pend := p2, pendW := (removeFirstXid x s.pendW).2 } := by
      simp only [iterateOnce, h, handleError, hrm]
    refine ⟨by rw [hit], by rw [hit], Or.inr (by rw [hit]),
      Or.inl (by rw [hit]), ?_⟩
    intro r2 h2
    simp at h2

/-- C10 witness: a concrete state with one error entry and the matching
pending write. -/
theorem run3_error_drain_throws_and_skips_witness :
    (iterateOnce 0 werr).inQ = werr.inQ ∧
    (iterateOnce 0 werr).comQ = werr.comQ ∧
    ((iterateOnce 0 werr).errs = [] ∨ (iterateOnce 0 werr).errs = werr.errs) ∧
    ((iterateOnce 0 werr).resps = werr.resps ∨
      ∃ r : Req, (iterateOnce 0 werr).resps =
        werr.resps ++ [Resp.failed r.sid r.xid 0 (nuErrToZ NuCode.OTHER)]) ∧
    (∀ r : Req, (removeFirstXid 4 werr.pend).1 = some r →
      iterateOnce 0 { werr with errs := ⟨4, true, NuCode.OTHER⟩ :: [] } =
        iterateOnce 0 { werr with errs := ⟨4, false, NuCode.OTHER⟩ :: [] }) :=
  run3_error_drain_throws_and_skips 0 4 true NuCode.OTHER [] werr rfl

/-! ## The per-session ordering invariant -/

theorem inv_init : Inv cpInit := by
  refine ⟨?_, rfl, ?_, ?_, ?_, rfl⟩ <;> simp [cpInit]

theorem inv_enq (r : Req) (s : CPState) (h : ∀ x ∈ allXids s, x < r.xid)
    (hs : Inv s) : Inv { s with inQ := s.inQ ++ [r] } := by
  obtain ⟨h1, h2, h3, h4, h5, h6⟩ := hs
  have hx : ∀ b ∈ (s.pend ++ s.inQ).map Req.xid, b < r.xid := fun b hb =>
    h b (List.mem_append_left _ hb)
  have hr : ∀ a ∈ s.resps.map Resp.rxid, a < r.xid := fun a ha =>
    h a (List.mem_append_right _ ha)
  have hassoc : s.pend ++ (s.inQ ++ [r]) = (s.pend ++ s.inQ) ++ [r] :=
    (List.append_assoc _ _ _).symm
  refine ⟨?_, h2, h3, ?_, ?_, h6⟩
  · rw [hassoc, List.map_append]
    exact List.pairwise_append.mpr ⟨h1, List.pairwise_singleton _ _,
      fun a ha b hb => by
        rw [List.map_singleton, List.mem_singleton] at hb
        exact hb ▸ hx a ha⟩
  · intro a ha b hb
    rw [hassoc, List.map_append, List.mem_append] at hb
    rcases hb with hb | hb
    · exact h4 a ha b hb
    · rw [List.map_singleton, List.mem_singleton] at hb
      exact hb ▸ hr a ha
  · rw [hassoc, List.filter_append]
    exact h5.trans (List.sublist_append_left _ _)

theorem inv_commit (c : Req) (s : CPState)
    (h : (s.comQ ++ [c]) <+ (s.pend ++ s.inQ).filter isWrite)
    (hs : Inv s) : Inv { s with comQ := s.comQ ++ [c] } := by
  obtain ⟨h1, h2, h3, h4, h5, h6⟩ := hs
  exact ⟨h1, h2, h3, h4, h, h6⟩

theorem inv_drain (s : CPState) (hs : Inv s) : Inv (drainInput s) := by
  obtain ⟨h1, h2, h3, h4, h5, h6⟩ := hs
  refine ⟨?_, ?_, h3, ?_, ?_, h6⟩
  · simpa [drainInput] using h1
  · simp [drainInput, List.filter_append, h2]
  · simpa [drainInput] using h4
  · simpa [drainInput] using h5

theorem filter_takeWhile_isRead (l : List Req) :
    (l.takeWhile Req.isRead).filter isWrite = [] := by
  rw [List.filter_eq_nil_iff]
  intro a ha
  have := List.mem_takeWhile_imp ha
  simp [isWrite, this]

theorem filter_dropWhile_isRead (l : List Req) :
    (l.dropWhile Req.isRead).filter isWrite = l.filter isWrite := by
  conv_rhs => rw [← List.takeWhile_append_dropWhile (p := Req.isRead) (l := l)]
  rw [List.filter_append, filter_takeWhile_isRead, List.nil_append]

theorem inv_serve (s : CPState) (hs : Inv s) (hq : s.inQ = []) :
    (serveReads s).2 = false ∧ Inv (serveReads s).1 ∧
      (serveReads s).1.inQ = [] ∧ (serveReads s).1.comQ = s.comQ := by
  obtain ⟨h1, h2, h3, h4, h5, h6⟩ := hs
  rw [hq, List.append_nil] at h1 h4 h5
  have hsplit : s.pend.takeWhile Req.isRead ++ s.pend.dropWhile Req.isRead = s.pend :=
    List.takeWhile_append_dropWhile Req.isRead s.pend
  have hcross : ∀ a ∈ (s.pend.takeWhile Req.isRead).map Req.xid,
      ∀ b ∈ (s.pend.dropWhile Req.isRead).map Req.xid, a < b := by
    have := h1
    rw [← hsplit, List.map_append] at this
    exact (List.pairwise_append.mp this).2.2
  have hsr : serveReads s =
      ({ s with
          pend := s.pend.dropWhile Req.isRead,
          resps := s.resps ++ (s.pend.takeWhile Req.isRead).map
            (fun r => Resp.fromStore r.sid r.xid) }, false) := by
    rw [serveReads, h2, serveGo_filter s.pend h1]
  rw [hsr]
  have hdropmap : ((s.pend.dropWhile Req.isRead).map Req.xid).Sublist
      (s.pend.map Req.xid) := (List.dropWhile_sublist _).map Req.xid
  have htakemap : ((s.pend.takeWhile Req.isRead).map Req.xid).Sublist
      (s.pend.map Req.xid) := (List.takeWhile_sublist _).map Req.xid
  have hrxid : ((s.pend.takeWhile Req.isRead).map
      (fun r => Resp.fromStore r.sid r.xid)).map Resp.rxid =
      (s.pend.takeWhile Req.isRead).map Req.xid := by
    rw [List.map_map]
    rfl
  refine ⟨rfl, ⟨?_, ?_, ?_, ?_, ?_, h6⟩, hq, rfl⟩
  · rw [hq, List.append_nil]
    exact h1.sublist hdropmap
  · rw [h2, filter_dropWhile_isRead]
  · rw [List.map_append, hrxid]
    refine List.pairwise_append.mpr ⟨h3, h1.sublist htakemap, ?_⟩
    exact fun a ha b hb => h4 a ha b (htakemap.subset hb)
  · intro a ha b hb
    rw [hq, List.append_nil] at hb
    rw [List.map_append, List.mem_append, hrxid] at ha
    rcases ha with ha | ha
    · exact h4 a ha b (hdropmap.subset hb)
    · exact hcross a ha b hb
  · rw [hq, List.append_nil, filter_dropWhile_isRead]
    exact h5

theorem inv_apply (k : Nat) : ∀ s : CPState, Inv s → s.inQ = [] →
    Inv (applyGo k s) ∧ (applyGo k s).inQ = [] := by
  induction k with
  | zero => exact fun s hs hq => ⟨hs, hq⟩
  | succ k ih =>
    intro s hs hq
    cases hcq : s.comQ with
    | nil =>
      have heq : applyGo (k + 1) s = s := by simp [applyGo, hcq]
      rw [heq]
      exact ⟨hs, hq⟩
    | cons c rest =>
      have h1 : Sorted (· < ·) (s.pend.map Req.xid) := by
        have := hs.1
        rwa [hq, List.append_nil] at this
      have h2 := hs.2.1
      have h3 := hs.2.2.1
      have h4 : ∀ a ∈ s.resps.map Resp.rxid, ∀ b ∈ s.pend.map Req.xid, a < b := by
        have h4' := hs.2.2.2.1
        intro a ha b hb
        exact h4' a ha b (by rwa [hq, List.append_nil])
      have h5 : c :: rest <+ s.pend.filter isWrite := by
        have := hs.2.2.2.2.1
        rwa [hq, List.append_nil, hcq] at this
      have h6 := hs.2.2.2.2.2
      cases hpw : s.pendW with
      | nil =>
        exfalso
        have hfe : s.pend.filter isWrite = [] := by rw [← h2, hpw]
        rw [hfe] at h5
        have := List.sublist_nil.mp h5
        simp at this
      | cons w wt =>
        cases hp : s.pend with
        | nil =>
          exfalso
          have hemp : s.pendW = [] := by rw [h2, hp]; rfl
          rw [hpw] at hemp
          simp at hemp
        | cons p pt =>
          have h1p : (∀ b ∈ pt.map Req.xid, p.xid < b) ∧
              Sorted (· < ·) (pt.map Req.xid) := by
            have := h1
            rw [hp, List.map_cons, List.sorted_cons] at this
            exact this
          obtain ⟨hplt, hpts⟩ := h1p
          by_cases hwc : w.xid = c.xid
          · by_cases hpc : p.xid = c.xid
            · have hpwrite : p.isRead = false := by
                cases hpr : p.isRead with
                | false => rfl
                | true =>
                  exfalso
                  have hfil : (p :: pt).filter isWrite = pt.filter isWrite := by
                    simp [List.filter_cons, isWrite, hpr]
                  have h2p : w :: wt = pt.filter isWrite := by
                    rw [← hfil, ← hp, ← h2, hpw]
                  have hwm : w ∈ pt := List.mem_of_mem_filter (l := pt) (by
                    rw [← h2p]
                    exact List.mem_cons_self _ _)
                  have := hplt _ (List.mem_map_of_mem Req.xid hwm)
                  omega
              have hfil : (p :: pt).filter isWrite = p :: pt.filter isWrite := by
                simp [List.filter_cons, isWrite, hpwrite]
              have h2p : w :: wt = p :: pt.filter isWrite := by
                rw [← hfil, ← hp, ← h2, hpw]
              have hwt : wt = pt.filter isWrite := by injection h2p
              have h5p : c :: rest <+ p :: pt.filter isWrite := by
                rw [← hfil, ← hp]
                exact h5
              have hrest : rest <+ pt.filter isWrite := by
                cases h5p with
                | cons a h7 =>
                  exfalso
                  have hcm : c ∈ pt := List.mem_of_mem_filter
                    (h7.subset (List.mem_cons_self _ _))
                  have := hplt _ (List.mem_map_of_mem Req.xid hcm)
                  omega
                | cons₂ a h7 => exact h7
              have happ : applyGo (k + 1) s = applyGo k
                  { s with
                      comQ := rest, pend := pt, pendW := wt,
                      resps := s.resps ++ [Resp.fromStore c.sid c.xid] } := by
                simp only [applyGo, hcq, hpw]
                rw [if_pos hwc]
                simp only [hp]
                rw [if_pos hpc]
              rw [happ]
              apply ih
              · refine ⟨?_, ?_, ?_, ?_, ?_, h6⟩
                · show Sorted (· < ·) ((pt ++ s.inQ).map Req.xid)
                  rw [hq, List.append_nil]
                  exact hpts
                · show wt = pt.filter isWrite
                  exact hwt
                · show Sorted (· < ·)
                    ((s.resps ++ [Resp.fromStore c.sid c.xid]).map Resp.rxid)
                  rw [List.map_append]
                  refine List.pairwise_append.mpr
                    ⟨h3, List.pairwise_singleton _ _, ?_⟩
                  intro a ha b hb
                  rw [List.map_singleton, List.mem_singleton] at hb
                  have hax : a < p.xid := h4 a ha p.xid (by
                    rw [hp, List.map_cons]
                    exact List.mem_cons_self _ _)
                  have hbc : b = c.xid := hb
                  omega
                · show ∀ a ∈ (s.resps ++ [Resp.fromStore c.sid c.xid]).map Resp.rxid,
                    ∀ b ∈ (pt ++ s.inQ).map Req.xid, a < b
                  intro a ha b hb
                  rw [hq, List.append_nil] at hb
                  rw [List.map_append, List.mem_append] at ha
                  rcases ha with ha | ha
                  · exact h4 a ha b (by
                      rw [hp, List.map_cons]
                      exact List.mem_cons_of_mem _ hb)
                  · rw [List.map_singleton, List.mem_singleton] at ha
                    have hac : a = c.xid := ha
                    have := hplt b hb
                    omega
                · show rest <+ (pt ++ s.inQ).filter isWrite
                  rw [hq, List.append_nil]
                  exact hrest
              · show s.inQ = []
                exact hq
            · have happ : applyGo (k + 1) s = { s with comQ := rest } := by
                simp only [applyGo, hcq, hpw]
                rw [if_pos hwc]
                simp only [hp]
                rw [if_neg hpc]
              rw [happ]
              refine ⟨⟨hs.1, hs.2.1, hs.2.2.1, hs.2.2.2.1, ?_, h6⟩, hq⟩
              show rest <+ (s.pend ++ s.inQ).filter isWrite
              rw [hq, List.append_nil]
              exact (List.sublist_cons_self c rest).trans h5
          · have happ : applyGo (k + 1) s = { s with comQ := rest } := by
              simp only [applyGo, hcq, hpw]
              rw [if_neg hwc]
            rw [happ]
            refine ⟨⟨hs.1, hs.2.1, hs.2.2.1, hs.2.2.2.1, ?_, h6⟩, hq⟩
            show rest <+ (s.pend ++ s.inQ).filter isWrite
            rw [hq, List.append_nil]
            exact (List.sublist_cons_self c rest).trans h5

theorem inv_iter (k : Nat) (s : CPState) (hs : Inv s) : Inv (iterateOnce k s) := by
  have h6 := hs.2.2.2.2.2
  have hd : Inv (drainInput s) := inv_drain s hs
  obtain ⟨hthr, hinv, hq2, _⟩ := inv_serve (drainInput s) hd rfl
  have heq : iterateOnce k s =
      if (serveReads (drainInput s)).2 then (serveReads (drainInput s)).1
      else applyGo k (serveReads (drainInput s)).1 := by
    rw [iterateOnce, h6]
  rw [heq, hthr]
  simp only [Bool.false_eq_true, if_false]
  exact (inv_apply k (serveReads (drainInput s)).1 hinv hq2).1

theorem inv_reach {s : CPState} (h : CPReach s) : Inv s := by
  induction h with
  | init => exact inv_init
  | step hr hst ih =>
    cases hst with
    | enq r s2 h2 => exact inv_enq r _ h2 ih
    | commit c s2 h2 => exact inv_commit c _ h2 ih
    | iter k s2 => exact inv_iter k _ ih

/-- C1: in every state the `run3` worker can reach — under any
interleaving of client enqueues with strictly increasing xids, in-order
consensus commits of the session's writes, and worker iterations — the
responses pushed for the session carry strictly increasing xids, i.e.
requests are applied and answered in xid submission order. -/
theorem run3_per_session_xid_order (s : CPState) (h : CPReach s) :
    Sorted (· < ·) (s.resps.map Resp.rxid) :=
  (inv_reach h).2.2.1

/-- C1 witness: enqueue `R(xid 1)` then `W(xid 2)`, deliver the commit of
the write, run one iteration; the two responses appear in xid order. -/
theorem run3_per_session_xid_order_witness :
    Sorted (· < ·)
      ((iterateOnce 1
          { cpInit with
              inQ := [⟨1, 1, true⟩, ⟨1, 2, false⟩],
              comQ := [⟨1, 2, false⟩] }).resps.map Resp.rxid) :=
  run3_per_session_xid_order _
    (CPReach.step
      (CPReach.step
        (CPReach.step
          (CPReach.step CPReach.init
            (CPStep.enq ⟨1, 1, true⟩ cpInit (by simp [allXids, cpInit])))
          (CPStep.enq ⟨1, 2, false⟩ _ (by simp [allXids, cpInit])))
        (CPStep.commit ⟨1, 2, false⟩ _ (by decide)))
      (CPStep.iter 1 _))

end RaftKeeper
